import Mathlib

/-!
Verification of the fuel-core genesis-loading pipeline against its
natural-language specification.

Shallow embedding of:
- `crates/fuel-core/src/service/genesis/workers.rs` (the `Handler` state
  machine, the per-category worker construction, the contracts-root phase);
- `crates/chain-config/src/config/codec.rs` (the `Group` container and the
  round-trip contract of the two on-disk formats);
- `crates/chain-config/src/config/state.rs` (`StateConfig`, its JSON file
  round-trip, `initial_coin`);
- `crates/chain-config/src/config/contract_balance.rs`
  (`ContractBalanceConfig`).

Machine scalars (u64, u8, 32-byte words, block heights) are modelled as
`Nat`; the only overflowing operation the embedded code performs is the
`checked_add` on the handler's `output_index`, which the source guards
explicitly, and the guard is embedded explicitly below.

Parts of the repository that the claims depend on but whose source files
are not part of the excerpt (the `runner` module, the `init_coin` /
`init_da_message` / `init_contract` store helpers, the codec encoder and
decoder modules, the record type definitions other than
`ContractBalanceConfig`) are modelled from the specification; each such
definition carries a doc comment starting with `Modelled from the spec:`.
-/

namespace FuelCore

/-- Result type of one fallible processing step. `ok` and `err` embed Rust's
`anyhow::Result`; `panic` embeds a Rust panic (`expect`), which is a fatal
process-level abort and not a recoverable returned error. -/
inductive GResult (α : Type) where
  | ok (val : α)
  | err (msg : String)
  | panic (msg : String)
deriving Repr, DecidableEq

/-- Largest value of a Rust `u64`; `checked_add 1` returns `None` exactly at
this value. -/
def u64Max : Nat := 2 ^ 64 - 1

/-- `Group<T>` from `codec.rs`: an ordered index plus the records of one
batch. `usize` is modelled as `Nat`. -/
structure Group (T : Type) where
  index : Nat
  data : List T
deriving Repr, DecidableEq

/-- `CoinConfig` from `chain-config` (its defining file is not part of the
excerpt; the fields are reconstructed from their uses in `state.rs`:
`initial_coin` and `test_config_coin_state`). Scalars are `Nat`. -/
structure CoinConfig where
  tx_id : Option Nat
  output_index : Option Nat
  tx_pointer_block_height : Option Nat
  tx_pointer_tx_idx : Option Nat
  maturity : Option Nat
  owner : Nat
  amount : Nat
  asset_id : Nat
deriving Repr, DecidableEq

/-- `MessageConfig` from `chain-config` (fields reconstructed from
`test_message_config` in `state.rs`). -/
structure MessageConfig where
  sender : Nat
  recipient : Nat
  nonce : Nat
  amount : Nat
  data : List Nat
  da_height : Nat
deriving Repr, DecidableEq

/-- `ContractConfig` from `chain-config` (fields reconstructed from the
tests in `state.rs` and the spec's record list: contract id, code bytes,
salt, optional embedded state and balances, optional utxo/tx-pointer
provenance). -/
structure ContractConfig where
  contract_id : Nat
  code : List Nat
  salt : Nat
  state : Option (List (Nat × Nat))
  balances : Option (List (Nat × Nat))
  tx_id : Option Nat
  output_index : Option Nat
  tx_pointer_block_height : Option Nat
  tx_pointer_tx_idx : Option Nat
deriving Repr, DecidableEq

/-- `ContractStateConfig`: a (contract id, key, value) triple, mirroring
`ContractBalanceConfig` from `contract_balance.rs`. -/
structure ContractStateConfig where
  contract_id : Nat
  key : Nat
  value : Nat
deriving Repr, DecidableEq

/-- `ContractBalanceConfig` from `contract_balance.rs`: a
(contract id, asset id, amount) triple. -/
structure ContractBalanceConfig where
  contract_id : Nat
  asset_id : Nat
  amount : Nat
deriving Repr, DecidableEq

/-- Canonical provenance of one utxo-identity field of a stored record:
either synthesized from the handler's counter (the field was absent in the
record) or taken verbatim from the record. -/
inductive Provenance where
  | synthesized (slot : Nat)
  | given (value : Nat)
deriving Repr, DecidableEq

/-- Modelled from the spec: the canonical value of one optional
origin-transaction field, "defaulting absent origin-transaction fields to a
synthetic value derived from the counter". -/
def provenanceOf (field : Option Nat) (counter : Nat) : Provenance :=
  match field with
  | none => .synthesized counter
  | some v => .given v

/-- A coin as written to the store by `init_coin`: the record together with
its canonical utxo identity and the block height the loader ran at. -/
structure StoredCoin where
  tx_id : Provenance
  output_index : Provenance
  height : Nat
  record : CoinConfig
deriving Repr, DecidableEq

/-- A contract as written to the store by `init_contract`. -/
structure StoredContract where
  contract_id : Nat
  code : List Nat
  salt : Nat
  tx_id : Provenance
  output_index : Provenance
  height : Nat
deriving Repr, DecidableEq

/-- The commitment root of one contract, as computed by the contracts-root
phase: a digest over that contract's state and balance entries in the
store. The external hash primitive is out of scope, so the digest is
modelled as the digested contents themselves. -/
structure ContractRoot where
  contract_id : Nat
  state_entries : List ContractStateConfig
  balance_entries : List ContractBalanceConfig
deriving Repr, DecidableEq

/-- The store (`Database`) as the genesis loader sees it: the written
records of each category, the per-category commitment accumulators
(`coin_roots`, `message_roots`, `contract_roots` collect the folded
leaves in order), the registered contract ids for the root phase, and the
batch-write log of the two group-level categories. -/
structure Database where
  coins : List StoredCoin
  messages : List MessageConfig
  contracts : List StoredContract
  contract_states : List ContractStateConfig
  contract_balances : List ContractBalanceConfig
  coin_roots : List StoredCoin
  message_roots : List MessageConfig
  contract_ids : List Nat
  contract_roots : List ContractRoot
  state_writes : List (List ContractStateConfig)
  balance_writes : List (List ContractBalanceConfig)
deriving Repr, DecidableEq

/-- The store with nothing written yet. -/
def emptyDb : Database :=
  ⟨[], [], [], [], [], [], [], [], [], [], []⟩

/-- `tx.add_coin_root(root)`: folds one coin commitment leaf into the Coins
accumulator. -/
def Database.add_coin_root (db : Database) (root : StoredCoin) : Database :=
  { db with coin_roots := db.coin_roots ++ [root] }

/-- `tx.add_message_root(root)`: folds one message commitment leaf into the
Messages accumulator. -/
def Database.add_message_root (db : Database) (root : MessageConfig) : Database :=
  { db with message_roots := db.message_roots ++ [root] }

/-- `tx.add_contract_id(id)`: registers a contract id for the later
contracts-root phase. -/
def Database.add_contract_id (db : Database) (id : Nat) : Database :=
  { db with contract_ids := db.contract_ids ++ [id] }

/-- `db.add_contract_root(root)`: persists one computed contract root. -/
def Database.add_contract_root (db : Database) (root : ContractRoot) : Database :=
  { db with contract_roots := db.contract_roots ++ [root] }

/-- `tx.update_contract_states(group)`: applies a whole ContractStates
group as one batch write. -/
def Database.update_contract_states (db : Database)
    (group : List ContractStateConfig) : Database :=
  { db with
    contract_states := db.contract_states ++ group
    state_writes := db.state_writes ++ [group] }

/-- `tx.update_contract_balances(group)`: applies a whole ContractBalances
group as one batch write. -/
def Database.update_contract_balances (db : Database)
    (group : List ContractBalanceConfig) : Database :=
  { db with
    contract_balances := db.contract_balances ++ group
    balance_writes := db.balance_writes ++ [group] }

/-- Modelled from the spec: `genesis_contract_ids_iter` enumerates "each
distinct contract id already present in the store" (the iterator's source
module is not part of the excerpt; a store table keyed by id yields each id
once). -/
def Database.genesis_contract_ids_iter (db : Database) : List Nat :=
  db.contract_ids.dedup

/-- The canonical stored form of a coin record processed at a given counter
value and block height. -/
def storedCoinOf (coin : CoinConfig) (outputIndex : Nat) (height : Nat) :
    StoredCoin :=
  { tx_id := provenanceOf coin.tx_id outputIndex
    output_index := provenanceOf coin.output_index outputIndex
    height := height
    record := coin }

/-- Modelled from the spec: `init_coin` derives the coin's canonical
provenance (defaulting absent origin-transaction fields to a synthetic
value derived from the counter), writes the coin to the store and returns
the commitment leaf for that record. -/
def init_coin (db : Database) (coin : CoinConfig) (outputIndex : Nat)
    (height : Nat) : StoredCoin × Database :=
  let stored := storedCoinOf coin outputIndex height
  (stored, { db with coins := db.coins ++ [stored] })

/-- Modelled from the spec: `init_da_message` writes the message to the
store and returns the commitment leaf for that record. -/
def init_da_message (db : Database) (message : MessageConfig) :
    MessageConfig × Database :=
  (message, { db with messages := db.messages ++ [message] })

/-- The canonical stored form of a contract record processed at a given
counter value and block height. -/
def storedContractOf (contract : ContractConfig) (outputIndex : Nat)
    (height : Nat) : StoredContract :=
  { contract_id := contract.contract_id
    code := contract.code
    salt := contract.salt
    tx_id := provenanceOf contract.tx_id outputIndex
    output_index := provenanceOf contract.output_index outputIndex
    height := height }

/-- The standalone form of a contract record's embedded initial state
entries. -/
def embeddedStates (contract : ContractConfig) : List ContractStateConfig :=
  (contract.state.getD []).map
    fun p => ContractStateConfig.mk contract.contract_id p.1 p.2

/-- The standalone form of a contract record's embedded initial balance
entries. -/
def embeddedBalances (contract : ContractConfig) : List ContractBalanceConfig :=
  (contract.balances.getD []).map
    fun p => ContractBalanceConfig.mk contract.contract_id p.1 p.2

/-- Modelled from the spec: `init_contract` derives the contract's
canonical provenance from the counter, writes the contract to the store,
and applies any embedded initial state/balance entries (a contract with
embedded entries must produce the same store contents as the contract plus
standalone ContractState/ContractBalance records). -/
def init_contract (db : Database) (contract : ContractConfig)
    (outputIndex : Nat) (height : Nat) : Database :=
  let stored := storedContractOf contract outputIndex height
  { db with
    contracts := db.contracts ++ [stored]
    contract_states := db.contract_states ++ embeddedStates contract
    contract_balances := db.contract_balances ++ embeddedBalances contract }

/-- `ContractRef::root()` as the root phase uses it: the commitment root of
one contract, a function of that contract's state and balance entries in
the store (the hash itself is an external primitive; the digested contents
stand for the digest). -/
def computeContractRoot (db : Database) (id : Nat) : ContractRoot :=
  { contract_id := id
    state_entries := db.contract_states.filter fun e => e.contract_id == id
    balance_entries := db.contract_balances.filter fun e => e.contract_id == id }

/-- The `Handler` of `workers.rs`: the per-runner state machine holding the
utxo-identity counter and the genesis block height. -/
structure Handler where
  output_index : Nat
  block_height : Nat
deriving Repr, DecidableEq

/-- `Handler::new(block_height)`: a fresh handler with `output_index = 0`.
`create_runner` calls this once per runner it builds. -/
def Handler.new (block_height : Nat) : Handler :=
  { output_index := 0, block_height := block_height }

/-- The panic message of the two `checked_add(1).expect(...)` calls in
`workers.rs`. -/
def overflowMsg : String :=
  "The maximum number of UTXOs supported in the genesis configuration has been exceeded."

/-- `ProcessState<CoinConfig>::process`: write the coin via `init_coin`
with the current counter, fold its leaf via `add_coin_root`, then advance
the counter with `checked_add(1).expect(...)` (panics on overflow). -/
def processCoin (h : Handler) (coin : CoinConfig) (tx : Database) :
    GResult (Handler × Database) :=
  let rootTx := init_coin tx coin h.output_index h.block_height
  let tx2 := rootTx.2.add_coin_root rootTx.1
  if h.output_index = u64Max then
    .panic overflowMsg
  else
    .ok ({ h with output_index := h.output_index + 1 }, tx2)

/-- `ProcessState<MessageConfig>::process`: write the message via
`init_da_message` and fold its leaf via `add_message_root`; the handler's
fields are untouched. -/
def processMessage (h : Handler) (message : MessageConfig) (tx : Database) :
    GResult (Handler × Database) :=
  let rootTx := init_da_message tx message
  .ok (h, rootTx.2.add_message_root rootTx.1)

/-- `ProcessState<ContractConfig>::process`: write the contract via
`init_contract` with the current counter, register its id via
`add_contract_id`, then advance the counter with
`checked_add(1).expect(...)` (panics on overflow). No commitment leaf is
folded here. -/
def processContract (h : Handler) (contract : ContractConfig)
    (tx : Database) : GResult (Handler × Database) :=
  let tx1 := init_contract tx contract h.output_index h.block_height
  let tx2 := tx1.add_contract_id contract.contract_id
  if h.output_index = u64Max then
    .panic overflowMsg
  else
    .ok ({ h with output_index := h.output_index + 1 }, tx2)

/-- `ProcessStateGroup<ContractStateConfig>::process_group`: apply the
whole group as one batch write. -/
def processGroupContractStates (h : Handler)
    (group : List ContractStateConfig) (tx : Database) :
    GResult (Handler × Database) :=
  .ok (h, tx.update_contract_states group)

/-- `ProcessStateGroup<ContractBalanceConfig>::process_group`: apply the
whole group as one batch write. -/
def processGroupContractBalances (h : Handler)
    (group : List ContractBalanceConfig) (tx : Database) :
    GResult (Handler × Database) :=
  .ok (h, tx.update_contract_balances group)

/-- `ProcessState<ContractId>::process`: compute the contract's root from
the store and persist it via `add_contract_root`. -/
def processContractId (h : Handler) (item : Nat) (tx : Database) :
    GResult (Handler × Database) :=
  let root := computeContractRoot tx item
  .ok (h, tx.add_contract_root root)

/-- Modelled from the spec: the record-level shape of the runner's group
handling, "once per record in the group, preserving list order" (the
blanket `ProcessStateGroup` impl of the `runner` module, which is not part
of the excerpt). -/
def processRecords {T : Type}
    (step : Handler → T → Database → GResult (Handler × Database)) :
    Handler → List T → Database → GResult (Handler × Database)
  | h, [], db => .ok (h, db)
  | h, r :: rest, db =>
    match step h r db with
    | .ok hdb => processRecords step hdb.1 rest hdb.2
    | .err m => .err m
    | .panic m => .panic m

/-- Modelled from the spec: the runner's happy-path loop over a group
sequence — groups are applied strictly in order, each group's records in
list order. -/
def runGroups {T : Type}
    (step : Handler → T → Database → GResult (Handler × Database)) :
    Handler → List (Group T) → Database → GResult (Handler × Database)
  | h, [], db => .ok (h, db)
  | h, g :: rest, db =>
    match processRecords step h g.data db with
    | .ok hdb => runGroups step hdb.1 rest hdb.2
    | .err m => .err m
    | .panic m => .panic m

/-- Modelled from the spec: the runner consuming a lazy sequence of
`Result<Group<T>>` — an error element aborts the run at that point
(failure is lazy; earlier groups already applied remain applied). -/
def runSeq {T : Type}
    (step : Handler → T → Database → GResult (Handler × Database)) :
    Handler → List (GResult (Group T)) → Database → GResult (Handler × Database)
  | h, [], db => .ok (h, db)
  | _, .err m :: _, _ => .err m
  | _, .panic m :: _, _ => .panic m
  | h, .ok g :: rest, db =>
    match processRecords step h g.data db with
    | .ok hdb => runSeq step hdb.1 rest hdb.2
    | .err m => .err m
    | .panic m => .panic m

/-- The slot of a stored coin whose origin-transaction id was absent and
therefore synthesized from the counter; `none` for explicit provenance. -/
def StoredCoin.synthSlot (sc : StoredCoin) : Option Nat :=
  match sc.tx_id with
  | .synthesized s => some s
  | .given _ => none

/-- The slot of a stored contract whose origin-transaction id was absent
and therefore synthesized from the counter. -/
def StoredContract.synthSlot (sc : StoredContract) : Option Nat :=
  match sc.tx_id with
  | .synthesized s => some s
  | .given _ => none

/-- All synthesized utxo-identity slots of the coins in the store, in write
order. -/
def Database.coinSlots (db : Database) : List Nat :=
  db.coins.filterMap StoredCoin.synthSlot

/-- All synthesized utxo-identity slots of the contracts in the store, in
write order. -/
def Database.contractSlots (db : Database) : List Nat :=
  db.contracts.filterMap StoredContract.synthSlot

/-- `spawn_coins_worker` as built by `create_runner`: the runner gets a
fresh `Handler::new(block_height)` of its own (this is the load-bearing
fact from `workers.rs`: every category runner starts its own counter at
zero). -/
def spawn_coins_worker (blockHeight : Nat) (coins : List CoinConfig)
    (db : Database) : GResult (Handler × Database) :=
  processRecords processCoin (Handler.new blockHeight) coins db

/-- `spawn_contracts_worker` as built by `create_runner`: again a fresh
`Handler::new(block_height)` private to this runner. -/
def spawn_contracts_worker (blockHeight : Nat)
    (contracts : List ContractConfig) (db : Database) :
    GResult (Handler × Database) :=
  processRecords processContract (Handler.new blockHeight) contracts db

/-- A genesis load over coin records and contract records: the Coins
runner and the Contracts runner each run with their own handler; since the
runners share no in-memory state, the sequential composition captures any
interleaving of the two workers as far as stored records and slots are
concerned. -/
def runCoinsThenContracts (blockHeight : Nat) (coins : List CoinConfig)
    (contracts : List ContractConfig) (db : Database) : GResult Database :=
  match spawn_coins_worker blockHeight coins db with
  | .ok hdb =>
    (match spawn_contracts_worker blockHeight contracts hdb.2 with
     | .ok hdb2 => .ok hdb2.2
     | .err m => .err m
     | .panic m => .panic m)
  | .err m => .err m
  | .panic m => .panic m

/-- The group sequence the contracts-root worker builds in
`spawn_contracts_root_worker`: the store's distinct contract ids,
enumerated, one singleton group per id, the enumeration position as the
group index. -/
def contractRootGroups (db : Database) : List (Group Nat) :=
  db.genesis_contract_ids_iter.enum.map fun p => { index := p.1, data := [p.2] }

/-- `spawn_contracts_root_worker`: run the contracts-root group sequence
through the `ProcessState<ContractId>` handler (fresh handler from
`create_runner`). -/
def spawn_contracts_root_worker (blockHeight : Nat) (db : Database) :
    GResult (Handler × Database) :=
  runGroups processContractId (Handler.new blockHeight) (contractRootGroups db) db

/-- Modelled from the spec: the decoder's per-category sequence — a missing
category file yields the empty sequence, not an error; a present file
yields its groups. -/
def readCategory {T : Type} (file : Option (List (Group T))) :
    List (GResult (Group T)) :=
  match file with
  | none => []
  | some gs => gs.map .ok

/-- Modelled from the spec: a snapshot as the `StateReader` sees it — per
category, an optional on-disk file holding that category's groups. -/
structure StateReader where
  coinsFile : Option (List (Group CoinConfig))
  messagesFile : Option (List (Group MessageConfig))
  contractsFile : Option (List (Group ContractConfig))
  contractStateFile : Option (List (Group ContractStateConfig))
  contractBalanceFile : Option (List (Group ContractBalanceConfig))

/-- `state_reader.messages()`: the decoder's sequence for Messages. -/
def StateReader.messages (r : StateReader) : List (GResult (Group MessageConfig)) :=
  readCategory r.messagesFile

/-- `spawn_messages_worker`: drive the Messages sequence through the
message handler with a fresh handler. -/
def spawn_messages_worker (blockHeight : Nat) (r : StateReader)
    (db : Database) : GResult (Handler × Database) :=
  runSeq processMessage (Handler.new blockHeight) r.messages db

/-- Modelled from the spec: the row-streaming encoder's per-category file
contents — each `write` call appends one group's records, so the closed
file holds the concatenation of all written groups. -/
def encodeJson {T : Type} (writes : List (List T)) : List T :=
  writes.flatten

/-- Split a record stream into consecutive chunks of `max g 1` records (the
last chunk may be shorter); the decode-side regrouping of the row format. -/
def chunkList {T : Type} (g : Nat) : List T → List (List T)
  | [] => []
  | x :: rest =>
    (x :: rest).take (max g 1) :: chunkList g ((x :: rest).drop (max g 1))
termination_by xs => xs.length
decreasing_by
  simp only [List.length_drop, List.length_cons]
  omega

/-- Modelled from the spec: the row-streaming decoder — re-derive group
boundaries from the caller-supplied group size and assign each group its
sequential position as index. -/
def decodeJson {T : Type} (groupSize : Nat) (file : List T) : List (Group T) :=
  (chunkList groupSize file).enum.map fun p => { index := p.1, data := p.2 }

/-- Modelled from the spec: the columnar encoder's per-category file — each
`write` call becomes one independently readable chunk, in call order. -/
def encodeParquet {T : Type} (writes : List (List T)) : List (List T) :=
  writes

/-- Modelled from the spec: the columnar decoder — yield exactly the chunks
as written, each with its sequential position as index. -/
def decodeParquet {T : Type} (file : List (List T)) : List (Group T) :=
  file.enum.map fun p => { index := p.1, data := p.2 }

/-- Checks that a sequence of encode-time writes all have exactly the
decode group size, except a possibly shorter (but nonempty) final write:
the documented compatibility requirement under which row-format group
boundaries line up on decode. -/
def sizedWrites {T : Type} (g : Nat) : List (List T) → Bool
  | [] => true
  | w :: rest =>
    match rest with
    | [] => decide (0 < w.length) && decide (w.length ≤ g)
    | y :: rest2 => (w.length == g) && sizedWrites g (y :: rest2)

/-- A JSON value, as serde_json models documents: scalars are the embedded
`Nat` scalars, byte-array fields keep their bytes (their hex text encoding
is injective and external). -/
inductive Json where
  | null
  | num (n : Nat)
  | bytes (bs : List Nat)
  | arr (xs : List Json)
  | obj (fields : List (String × Json))
deriving Repr

/-- First binding of a key in a JSON object (or in a directory listing). -/
def Json.lookupField (fields : List (String × Json)) (key : String) :
    Option Json :=
  match fields with
  | [] => none
  | (k, v) :: rest => if k == key then some v else Json.lookupField rest key

/-- Decode a JSON number. -/
def decNum : Json → Except String Nat
  | .num n => .ok n
  | _ => .error "expected a number"

/-- Decode a JSON byte-array field. -/
def decBytes : Json → Except String (List Nat)
  | .bytes bs => .ok bs
  | _ => .error "expected bytes"

/-- Encode a two-tuple the way serde encodes tuples: a two-element array. -/
def encPair (p : Nat × Nat) : Json :=
  .arr [.num p.1, .num p.2]

/-- Decode a two-tuple. -/
def decPair : Json → Except String (Nat × Nat)
  | .arr [a, b] => do
    let x ← decNum a
    let y ← decNum b
    .ok (x, y)
  | _ => .error "expected a pair"

/-- Decode every element of a JSON array body. -/
def decListWith {α : Type} (dec : Json → Except String α) :
    List Json → Except String (List α)
  | [] => .ok []
  | j :: rest => do
    let x ← dec j
    let xs ← decListWith dec rest
    .ok (x :: xs)

/-- Decode a JSON array. -/
def decArr {α : Type} (dec : Json → Except String α) :
    Json → Except String (List α)
  | .arr xs => decListWith dec xs
  | _ => .error "expected an array"

/-- serde: a non-optional field must be present. -/
def reqField {α : Type} (fields : List (String × Json)) (key : String)
    (dec : Json → Except String α) : Except String α :=
  match Json.lookupField fields key with
  | none => .error ("missing field " ++ key)
  | some j => dec j

/-- serde of an `Option` field: an absent or null field is `None`
(`skip_serializing_none` omits `None` fields on encode). -/
def optField {α : Type} (fields : List (String × Json)) (key : String)
    (dec : Json → Except String α) : Except String (Option α) :=
  match Json.lookupField fields key with
  | none => .ok none
  | some .null => .ok none
  | some j => Except.map some (dec j)

/-- `skip_serializing_none` on a numeric `Option` field: emit nothing for
`None`. -/
def optNumField (key : String) (v : Option Nat) : List (String × Json) :=
  match v with
  | none => []
  | some n => [(key, Json.num n)]

/-- `skip_serializing_none` on a generic `Option` field. -/
def optJsonField (key : String) (v : Option Json) : List (String × Json) :=
  match v with
  | none => []
  | some j => [(key, j)]

/-- serde serialization of `CoinConfig` (`Serialize` derive with
`skip_serializing_none`). -/
def CoinConfig.toJson (c : CoinConfig) : Json :=
  .obj (optNumField "tx_id" c.tx_id ++
        optNumField "output_index" c.output_index ++
        optNumField "tx_pointer_block_height" c.tx_pointer_block_height ++
        optNumField "tx_pointer_tx_idx" c.tx_pointer_tx_idx ++
        optNumField "maturity" c.maturity ++
        [("owner", .num c.owner),
         ("amount", .num c.amount),
         ("asset_id", .num c.asset_id)])

/-- serde deserialization of `CoinConfig`. -/
def CoinConfig.fromJson (j : Json) : Except String CoinConfig :=
  match j with
  | .obj fields => do
    let txId ← optField fields "tx_id" decNum
    let outputIndex ← optField fields "output_index" decNum
    let txPtrHeight ← optField fields "tx_pointer_block_height" decNum
    let txPtrIdx ← optField fields "tx_pointer_tx_idx" decNum
    let maturity ← optField fields "maturity" decNum
    let owner ← reqField fields "owner" decNum
    let amount ← reqField fields "amount" decNum
    let assetId ← reqField fields "asset_id" decNum
    .ok ⟨txId, outputIndex, txPtrHeight, txPtrIdx, maturity, owner, amount, assetId⟩
  | _ => .error "expected an object"

/-- serde serialization of `MessageConfig`. -/
def MessageConfig.toJson (m : MessageConfig) : Json :=
  .obj [("sender", .num m.sender),
        ("recipient", .num m.recipient),
        ("nonce", .num m.nonce),
        ("amount", .num m.amount),
        ("data", .bytes m.data),
        ("da_height", .num m.da_height)]

/-- serde deserialization of `MessageConfig`. -/
def MessageConfig.fromJson (j : Json) : Except String MessageConfig :=
  match j with
  | .obj fields => do
    let sender ← reqField fields "sender" decNum
    let recipient ← reqField fields "recipient" decNum
    let nonce ← reqField fields "nonce" decNum
    let amount ← reqField fields "amount" decNum
    let data ← reqField fields "data" decBytes
    let daHeight ← reqField fields "da_height" decNum
    .ok ⟨sender, recipient, nonce, amount, data, daHeight⟩
  | _ => .error "expected an object"

/-- The serialized field list of a `ContractConfig` (`skip_serializing_none`
drops the absent optional fields). -/
def contractFields (c : ContractConfig) : List (String × Json) :=
  [("contract_id", .num c.contract_id),
   ("code", .bytes c.code),
   ("salt", .num c.salt)] ++
  optJsonField "state" (c.state.map fun l => .arr (l.map encPair)) ++
  optJsonField "balances" (c.balances.map fun l => .arr (l.map encPair)) ++
  optNumField "tx_id" c.tx_id ++
  optNumField "output_index" c.output_index ++
  optNumField "tx_pointer_block_height" c.tx_pointer_block_height ++
  optNumField "tx_pointer_tx_idx" c.tx_pointer_tx_idx

/-- serde serialization of `ContractConfig`. -/
def ContractConfig.toJson (c : ContractConfig) : Json :=
  .obj (contractFields c)

/-- serde deserialization of `ContractConfig`. -/
def ContractConfig.fromJson (j : Json) : Except String ContractConfig :=
  match j with
  | .obj fields => do
    let contractId ← reqField fields "contract_id" decNum
    let code ← reqField fields "code" decBytes
    let salt ← reqField fields "salt" decNum
    let state ← optField fields "state" (decArr decPair)
    let balances ← optField fields "balances" (decArr decPair)
    let txId ← optField fields "tx_id" decNum
    let outputIndex ← optField fields "output_index" decNum
    let txPtrHeight ← optField fields "tx_pointer_block_height" decNum
    let txPtrIdx ← optField fields "tx_pointer_tx_idx" decNum
    .ok ⟨contractId, code, salt, state, balances, txId, outputIndex,
         txPtrHeight, txPtrIdx⟩
  | _ => .error "expected an object"

/-- `StateConfig` from `state.rs`: the three optional record collections,
serialized with `skip_serializing_none`. -/
structure StateConfig where
  coins : Option (List CoinConfig)
  contracts : Option (List ContractConfig)
  messages : Option (List MessageConfig)
deriving Repr, DecidableEq

/-- serde serialization of `StateConfig`. -/
def StateConfig.toJson (s : StateConfig) : Json :=
  .obj (optJsonField "coins"
          (s.coins.map fun l => .arr (l.map CoinConfig.toJson)) ++
        optJsonField "contracts"
          (s.contracts.map fun l => .arr (l.map ContractConfig.toJson)) ++
        optJsonField "messages"
          (s.messages.map fun l => .arr (l.map MessageConfig.toJson)))

/-- serde deserialization of `StateConfig`. -/
def StateConfig.fromJson (j : Json) : Except String StateConfig :=
  match j with
  | .obj fields => do
    let coins ← optField fields "coins" (decArr CoinConfig.fromJson)
    let contracts ← optField fields "contracts" (decArr ContractConfig.fromJson)
    let messages ← optField fields "messages" (decArr MessageConfig.fromJson)
    .ok ⟨coins, contracts, messages⟩
  | _ => .error "expected an object"

/-- `STATE_CONFIG_FILENAME` from `state.rs`. -/
def STATE_CONFIG_FILENAME : String := "state_config.json"

/-- A directory as the two file functions touch it: file names mapped to
file contents; serde_json's text layer is an external collaborator, so a
written JSON document is modelled by its JSON value. -/
def Directory : Type := List (String × Json)

/-- `StateConfig::create_config_file`: create (truncate) the state config
file in the directory and write the serialized config into it. -/
def create_config_file (s : StateConfig) (dir : Directory) : Directory :=
  (STATE_CONFIG_FILENAME, s.toJson) :: dir

/-- `StateConfig::load_from_directory`: read the state config file from the
directory and deserialize it. -/
def load_from_directory (dir : Directory) : Except String StateConfig :=
  match Json.lookupField dir STATE_CONFIG_FILENAME with
  | none => .error "no such file"
  | some j => StateConfig.fromJson j

/-- `UtxoId`: a transaction id plus an output index. -/
structure UtxoId where
  tx_id : Nat
  output_index : Nat
deriving Repr, DecidableEq

/-- Modelled from the spec: the external crypto derivation
`Address::from(*secret.public_key().hash())`; the hash primitive is an
excluded collaborator, so the derived address is abstracted as the
secret-determined value itself. -/
def publicKeyHashAddress (secret : Nat) : Nat :=
  secret

/-- `AssetId::default()`: the zeroed asset id. -/
def defaultAssetId : Nat := 0

/-- `StateConfig::initial_coin` from `state.rs`. -/
def initial_coin (secret : Nat) (amount : Nat) (utxo_id : Option UtxoId) :
    CoinConfig :=
  let address := publicKeyHashAddress secret
  { tx_id := utxo_id.map fun u => u.tx_id
    output_index := utxo_id.map fun u => u.output_index
    tx_pointer_block_height := none
    tx_pointer_tx_idx := none
    maturity := none
    owner := address
    amount := amount
    asset_id := defaultAssetId }

/-- Whether a processing step returned normally. -/
def GResult.isOk {α : Type} : GResult α → Bool
  | .ok _ => true
  | _ => false

/-- The handler state a successful processing step returned. -/
def resultHandler : GResult (Handler × Database) → Option Handler
  | .ok hdb => some hdb.1
  | _ => none

/-- The store a successful processing step returned. -/
def resultDb : GResult (Handler × Database) → Option Database
  | .ok hdb => some hdb.2
  | _ => none

/-- The synthesized slots (coins first, then contracts) of a successful
genesis load. -/
def runSlots (r : GResult Database) : Option (List Nat) :=
  match r with
  | .ok db => some (db.coinSlots ++ db.contractSlots)
  | _ => none

/-- The claimed slot property of C1: the load succeeded and the synthesized
slots used across the two categories together are exactly
`{0, …, n - 1}`: no slot used twice (nodup), none outside the range, and
none skipped (their count is `n`). -/
def slotsExactRange (r : GResult Database) (n : Nat) : Bool :=
  match r with
  | .ok db =>
    let slots := db.coinSlots ++ db.contractSlots
    decide slots.Nodup && (slots.length == n) && slots.all fun s => s < n
  | _ => false

/-- A bare coin record: origin-transaction provenance absent. -/
def exCoin : CoinConfig :=
  ⟨none, none, none, none, none, 7, 100, 0⟩

/-- A bare contract record: origin-transaction provenance absent. -/
def exContract : ContractConfig :=
  ⟨42, [1, 2], 0, none, none, none, none, none, none⟩

/-- A message record. -/
def exMessage : MessageConfig :=
  ⟨1, 2, 3, 4, [5], 6⟩

/-- Element-wise decoding inverts element-wise encoding. -/
theorem decListWith_map {α : Type} (dec : Json → Except String α)
    (enc : α → Json) (hre : ∀ x, dec (enc x) = .ok x) (l : List α) :
    decListWith dec (l.map enc) = .ok l := by
  induction l with
  | nil => rfl
  | cons x rest ih =>
    simp only [List.map_cons, decListWith]
    rw [hre, ih]
    rfl

/-- Tuple decoding inverts tuple encoding. -/
theorem decPair_encPair (p : Nat × Nat) : decPair (encPair p) = .ok p := by
  cases p
  rfl

/-- serde round-trip for one coin record. -/
theorem coinConfig_roundtrip (c : CoinConfig) :
    CoinConfig.fromJson (CoinConfig.toJson c) = .ok c := by
  obtain ⟨t, o, tb, ti, m, ow, am, ai⟩ := c
  cases t <;> cases o <;> cases tb <;> cases ti <;> cases m <;> rfl

/-- serde round-trip for one message record. -/
theorem messageConfig_roundtrip (m : MessageConfig) :
    MessageConfig.fromJson (MessageConfig.toJson m) = .ok m := by
  obtain ⟨s, r, n, a, d, h⟩ := m
  rfl

/-- Lookup distributes over appended field segments; the first hit wins. -/
theorem lookupField_append (xs ys : List (String × Json)) (key : String) :
    Json.lookupField (xs ++ ys) key =
      (match Json.lookupField xs key with
       | some v => some v
       | none => Json.lookupField ys key) := by
  induction xs with
  | nil => simp [Json.lookupField]
  | cons p rest ih =>
    obtain ⟨k, v⟩ := p
    by_cases h : (k == key) = true
    · simp [Json.lookupField, h]
    · simp only [List.cons_append, Json.lookupField, eq_false_of_ne_true h,
        if_false, Bool.false_eq_true, List.append_eq, ih]

/-- A skipped-when-none numeric field resolves to its own key. -/
theorem lookupField_optNumField_self (key : String) (v : Option Nat) :
    Json.lookupField (optNumField key v) key = v.map Json.num := by
  cases v <;> simp [optNumField, Json.lookupField]

/-- A skipped-when-none numeric field is invisible to other keys. -/
theorem lookupField_optNumField_other (k key : String) (v : Option Nat)
    (h : (k == key) = false) :
    Json.lookupField (optNumField k v) key = none := by
  cases v <;> simp [optNumField, Json.lookupField, h]

/-- A skipped-when-none generic field resolves to its own key. -/
theorem lookupField_optJsonField_self (key : String) (v : Option Json) :
    Json.lookupField (optJsonField key v) key = v := by
  cases v <;> simp [optJsonField, Json.lookupField]

/-- A skipped-when-none generic field is invisible to other keys. -/
theorem lookupField_optJsonField_other (k key : String) (v : Option Json)
    (h : (k == key) = false) :
    Json.lookupField (optJsonField k v) key = none := by
  cases v <;> simp [optJsonField, Json.lookupField, h]

/-- A required field decodes once its lookup and element decode compute. -/
theorem reqField_of_lookup {α : Type} (dec : Json → Except String α)
    {fields : List (String × Json)} {key : String} {j : Json} {x : α}
    (hl : Json.lookupField fields key = some j) (hd : dec j = .ok x) :
    reqField fields key dec = .ok x := by
  simp [reqField, hl, hd]

/-- An optional numeric field decodes to whatever its lookup holds. -/
theorem optField_decNum_of_lookup {fields : List (String × Json)}
    {key : String} {v : Option Nat}
    (h : Json.lookupField fields key = v.map Json.num) :
    optField fields key decNum = .ok v := by
  cases v <;> simp [optField, h, decNum, Except.map]

/-- An optional encoded-list field decodes back to the original list. -/
theorem optField_arr_of_lookup {α : Type} (dec : Json → Except String α)
    (enc : α → Json) (hre : ∀ x, dec (enc x) = .ok x)
    {fields : List (String × Json)} {key : String} {v : Option (List α)}
    (h : Json.lookupField fields key = v.map fun l => Json.arr (l.map enc)) :
    optField fields key (decArr dec) = .ok v := by
  cases v <;>
    simp [optField, h, decArr, decListWith_map dec enc hre, Except.map]

/-- The "contract_id" lookup in an encoded contract. -/
theorem lookup_contractFields_cid (c : ContractConfig) :
    Json.lookupField (contractFields c) "contract_id"
      = some (.num c.contract_id) := by
  simp [contractFields, Json.lookupField]

/-- The "code" lookup in an encoded contract. -/
theorem lookup_contractFields_code (c : ContractConfig) :
    Json.lookupField (contractFields c) "code" = some (.bytes c.code) := by
  simp [contractFields, Json.lookupField]

/-- The "salt" lookup in an encoded contract. -/
theorem lookup_contractFields_salt (c : ContractConfig) :
    Json.lookupField (contractFields c) "salt" = some (.num c.salt) := by
  simp [contractFields, Json.lookupField]

/-- The "state" lookup in an encoded contract. -/
theorem lookup_contractFields_state (c : ContractConfig) :
    Json.lookupField (contractFields c) "state"
      = c.state.map fun l => Json.arr (l.map encPair) := by
  obtain ⟨cid, code, salt, st, bal, t, o, tb, ti⟩ := c
  cases st <;>
    simp [contractFields, Json.lookupField, lookupField_append,
      lookupField_optJsonField_self, lookupField_optJsonField_other,
      lookupField_optNumField_other]

/-- The "balances" lookup in an encoded contract. -/
theorem lookup_contractFields_balances (c : ContractConfig) :
    Json.lookupField (contractFields c) "balances"
      = c.balances.map fun l => Json.arr (l.map encPair) := by
  obtain ⟨cid, code, salt, st, bal, t, o, tb, ti⟩ := c
  cases bal <;>
    simp [contractFields, Json.lookupField, lookupField_append,
      lookupField_optJsonField_self, lookupField_optJsonField_other,
      lookupField_optNumField_other]

/-- The "tx_id" lookup in an encoded contract. -/
theorem lookup_contractFields_txid (c : ContractConfig) :
    Json.lookupField (contractFields c) "tx_id" = c.tx_id.map Json.num := by
  obtain ⟨cid, code, salt, st, bal, t, o, tb, ti⟩ := c
  cases t <;>
    simp [contractFields, Json.lookupField, lookupField_append,
      lookupField_optJsonField_other, lookupField_optNumField_self,
      lookupField_optNumField_other]

/-- The "output_index" lookup in an encoded contract. -/
theorem lookup_contractFields_outidx (c : ContractConfig) :
    Json.lookupField (contractFields c) "output_index"
      = c.output_index.map Json.num := by
  obtain ⟨cid, code, salt, st, bal, t, o, tb, ti⟩ := c
  cases o <;>
    simp [contractFields, Json.lookupField, lookupField_append,
      lookupField_optJsonField_other, lookupField_optNumField_self,
      lookupField_optNumField_other]

/-- The "tx_pointer_block_height" lookup in an encoded contract. -/
theorem lookup_contractFields_ptrheight (c : ContractConfig) :
    Json.lookupField (contractFields c) "tx_pointer_block_height"
      = c.tx_pointer_block_height.map Json.num := by
  obtain ⟨cid, code, salt, st, bal, t, o, tb, ti⟩ := c
  cases tb <;>
    simp [contractFields, Json.lookupField, lookupField_append,
      lookupField_optJsonField_other, lookupField_optNumField_self,
      lookupField_optNumField_other]

/-- The "tx_pointer_tx_idx" lookup in an encoded contract. -/
theorem lookup_contractFields_ptridx (c : ContractConfig) :
    Json.lookupField (contractFields c) "tx_pointer_tx_idx"
      = c.tx_pointer_tx_idx.map Json.num := by
  obtain ⟨cid, code, salt, st, bal, t, o, tb, ti⟩ := c
  cases ti <;>
    simp [contractFields, Json.lookupField, lookupField_append,
      lookupField_optJsonField_other, lookupField_optNumField_self,
      lookupField_optNumField_other]

/-- serde round-trip for one contract record. -/
theorem contractConfig_roundtrip (c : ContractConfig) :
    ContractConfig.fromJson (ContractConfig.toJson c) = .ok c := by
  have h1 := reqField_of_lookup decNum (lookup_contractFields_cid c) rfl
  have h2 := reqField_of_lookup decBytes (lookup_contractFields_code c) rfl
  have h3 := reqField_of_lookup decNum (lookup_contractFields_salt c) rfl
  have h4 := optField_arr_of_lookup decPair encPair decPair_encPair
    (lookup_contractFields_state c)
  have h5 := optField_arr_of_lookup decPair encPair decPair_encPair
    (lookup_contractFields_balances c)
  have h6 := optField_decNum_of_lookup (lookup_contractFields_txid c)
  have h7 := optField_decNum_of_lookup (lookup_contractFields_outidx c)
  have h8 := optField_decNum_of_lookup (lookup_contractFields_ptrheight c)
  have h9 := optField_decNum_of_lookup (lookup_contractFields_ptridx c)
  show ContractConfig.fromJson (.obj (contractFields c)) = .ok c
  simp only [ContractConfig.fromJson, h1, h2, h3, h4, h5, h6, h7, h8, h9]
  rfl

/-- serde round-trip for a whole `StateConfig` value. -/
theorem stateConfig_roundtrip (s : StateConfig) :
    StateConfig.fromJson (StateConfig.toJson s) = .ok s := by
  obtain ⟨cs, ct, ms⟩ := s
  have hc := decListWith_map CoinConfig.fromJson CoinConfig.toJson
    coinConfig_roundtrip
  have hk := decListWith_map ContractConfig.fromJson ContractConfig.toJson
    contractConfig_roundtrip
  have hm := decListWith_map MessageConfig.fromJson MessageConfig.toJson
    messageConfig_roundtrip
  cases cs <;> cases ct <;> cases ms <;>
    simp [StateConfig.toJson, StateConfig.fromJson, optJsonField, optField,
          Json.lookupField, decArr, hc, hk, hm, Except.map] <;>
    rfl

/-- C9: writing a `StateConfig` with `create_config_file` and reading the
directory back with `load_from_directory` returns `Ok` of a value equal to
the original: the JSON file round-trip is the identity on `StateConfig`. -/
theorem createConfigFile_loadFromDirectory_roundtrip (s : StateConfig)
    (dir : Directory) :
    load_from_directory (create_config_file s dir) = .ok s := by
  show load_from_directory ((STATE_CONFIG_FILENAME, s.toJson) :: dir) = .ok s
  unfold load_from_directory
  simp [Json.lookupField, stateConfig_roundtrip]

/-- C10: `initial_coin` builds a coin owned by the address derived from the
secret's public-key hash, with the given amount, the default asset id, no
tx-pointer and no maturity, and with tx id and output index taken from the
utxo id exactly when one is given. -/
theorem initialCoin_spec (secret amount : Nat) (utxo_id : Option UtxoId) :
    (initial_coin secret amount utxo_id).owner = publicKeyHashAddress secret ∧
    (initial_coin secret amount utxo_id).amount = amount ∧
    (initial_coin secret amount utxo_id).asset_id = defaultAssetId ∧
    (initial_coin secret amount utxo_id).tx_pointer_block_height = none ∧
    (initial_coin secret amount utxo_id).tx_pointer_tx_idx = none ∧
    (initial_coin secret amount utxo_id).maturity = none ∧
    (initial_coin secret amount utxo_id).tx_id = utxo_id.map UtxoId.tx_id ∧
    (initial_coin secret amount utxo_id).output_index
      = utxo_id.map UtxoId.output_index ∧
    ((initial_coin secret amount utxo_id).tx_id.isSome ↔ utxo_id.isSome) ∧
    ((initial_coin secret amount utxo_id).output_index.isSome ↔ utxo_id.isSome) := by
  cases utxo_id <;> simp [initial_coin]

/-- C4: with `output_index` at `u64::MAX`, processing one further Coin or
Contract record panics (a fatal process-level abort, not a recoverable
returned error); with `output_index < u64::MAX` the overflow branch is
unreachable and processing returns normally. -/
theorem counterOverflow_spec :
    (∀ (bh : Nat) (c : CoinConfig) (db : Database),
      processCoin ⟨u64Max, bh⟩ c db = .panic overflowMsg) ∧
    (∀ (bh : Nat) (k : ContractConfig) (db : Database),
      processContract ⟨u64Max, bh⟩ k db = .panic overflowMsg) ∧
    (∀ (h : Handler) (c : CoinConfig) (db : Database),
      h.output_index < u64Max → (processCoin h c db).isOk = true) ∧
    (∀ (h : Handler) (k : ContractConfig) (db : Database),
      h.output_index < u64Max → (processContract h k db).isOk = true) := by
  refine ⟨fun bh c db => ?_, fun bh k db => ?_,
    fun h c db hlt => ?_, fun h k db hlt => ?_⟩
  · simp [processCoin]
  · simp [processContract]
  · simp [processCoin, Nat.ne_of_lt hlt, GResult.isOk]
  · simp [processContract, Nat.ne_of_lt hlt, GResult.isOk]

/-- Witness for C4's hypothesized conjuncts at a concrete handler below the
maximum. -/
theorem counterOverflow_spec_witness :
    (processCoin ⟨5, 0⟩ exCoin emptyDb).isOk = true ∧
    (processContract ⟨5, 0⟩ exContract emptyDb).isOk = true :=
  ⟨counterOverflow_spec.2.2.1 ⟨5, 0⟩ exCoin emptyDb (by decide),
   counterOverflow_spec.2.2.2 ⟨5, 0⟩ exContract emptyDb (by decide)⟩

/-- C5: successfully processing a Coin or Contract record advances the
handler's `output_index` by exactly one and keeps `block_height`; a
Message record, a ContractStates group, a ContractBalances group, and a
ContractId leave the handler exactly as it was. -/
theorem outputIndex_frame_spec :
    (∀ (h : Handler) (c : CoinConfig) (db : Database),
      h.output_index < u64Max →
      resultHandler (processCoin h c db)
        = some ⟨h.output_index + 1, h.block_height⟩) ∧
    (∀ (h : Handler) (k : ContractConfig) (db : Database),
      h.output_index < u64Max →
      resultHandler (processContract h k db)
        = some ⟨h.output_index + 1, h.block_height⟩) ∧
    (∀ (h : Handler) (m : MessageConfig) (db : Database),
      resultHandler (processMessage h m db) = some h) ∧
    (∀ (h : Handler) (g : List ContractStateConfig) (db : Database),
      resultHandler (processGroupContractStates h g db) = some h) ∧
    (∀ (h : Handler) (g : List ContractBalanceConfig) (db : Database),
      resultHandler (processGroupContractBalances h g db) = some h) ∧
    (∀ (h : Handler) (i : Nat) (db : Database),
      resultHandler (processContractId h i db) = some h) := by
  refine ⟨fun h c db hlt => ?_, fun h k db hlt => ?_,
    fun h m db => rfl, fun h g db => rfl, fun h g db => rfl,
    fun h i db => rfl⟩
  · simp [processCoin, Nat.ne_of_lt hlt, resultHandler]
  · simp [processContract, Nat.ne_of_lt hlt, resultHandler]

/-- Witness for C5's hypothesized conjuncts at a concrete handler below the
maximum. -/
theorem outputIndex_frame_spec_witness :
    resultHandler (processCoin ⟨5, 9⟩ exCoin emptyDb) = some ⟨6, 9⟩ ∧
    resultHandler (processContract ⟨5, 9⟩ exContract emptyDb) = some ⟨6, 9⟩ :=
  ⟨outputIndex_frame_spec.1 ⟨5, 9⟩ exCoin emptyDb (by decide),
   outputIndex_frame_spec.2.1 ⟨5, 9⟩ exContract emptyDb (by decide)⟩

/-- C2 as stated is false for Contract records: here a contract record is
processed successfully and written to the store, yet no commitment leaf is
folded into the Contracts accumulator (`add_contract_id` registers the id;
no `add_*_root` call happens). -/
theorem recordLeaf_counterexample :
    (processContract (Handler.new 0) exContract emptyDb).isOk = true ∧
    (resultDb (processContract (Handler.new 0) exContract emptyDb)).map
        (fun db => (db.contracts.length, db.contract_roots.length,
          db.coin_roots.length, db.message_roots.length))
      = some (1, 0, 0, 0) := by
  decide

/-- C2 amended: a successfully processed Coin or Message record is written
to the store with exactly one commitment leaf folded into its category's
accumulator; a successfully processed Contract record is written to the
store (with its embedded state and balance entries) and its contract id
registered for the root phase, with no commitment leaf folded. -/
theorem recordLevel_write_and_leaf_spec :
    (∀ (h : Handler) (c : CoinConfig) (db : Database),
      h.output_index < u64Max →
      resultDb (processCoin h c db) = some { db with
        coins := db.coins ++ [storedCoinOf c h.output_index h.block_height]
        coin_roots := db.coin_roots
          ++ [storedCoinOf c h.output_index h.block_height] }) ∧
    (∀ (h : Handler) (m : MessageConfig) (db : Database),
      resultDb (processMessage h m db) = some { db with
        messages := db.messages ++ [m]
        message_roots := db.message_roots ++ [m] }) ∧
    (∀ (h : Handler) (k : ContractConfig) (db : Database),
      h.output_index < u64Max →
      resultDb (processContract h k db) = some { db with
        contracts := db.contracts
          ++ [storedContractOf k h.output_index h.block_height]
        contract_states := db.contract_states ++ embeddedStates k
        contract_balances := db.contract_balances ++ embeddedBalances k
        contract_ids := db.contract_ids ++ [k.contract_id] }) := by
  refine ⟨fun h c db hlt => ?_, fun h m db => rfl, fun h k db hlt => ?_⟩
  · simp [processCoin, init_coin, Database.add_coin_root,
      Nat.ne_of_lt hlt, resultDb]
  · simp [processContract, init_contract, Database.add_contract_id,
      Nat.ne_of_lt hlt, resultDb]

/-- Witness for C2's amended theorem at a concrete handler below the
maximum. -/
theorem recordLevel_write_and_leaf_spec_witness :
    resultDb (processCoin (Handler.new 3) exCoin emptyDb) = some { emptyDb with
      coins := [storedCoinOf exCoin 0 3]
      coin_roots := [storedCoinOf exCoin 0 3] } ∧
    resultDb (processContract (Handler.new 3) exContract emptyDb)
      = some { emptyDb with
          contracts := [storedContractOf exContract 0 3]
          contract_states := embeddedStates exContract
          contract_balances := embeddedBalances exContract
          contract_ids := [exContract.contract_id] } := by
  refine ⟨?_, ?_⟩
  · have := recordLevel_write_and_leaf_spec.1 (Handler.new 3) exCoin emptyDb
      (by decide)
    simpa [emptyDb] using this
  · have := recordLevel_write_and_leaf_spec.2.2 (Handler.new 3) exContract
      emptyDb (by decide)
    simpa [emptyDb] using this

/-- C6: a ContractStates or ContractBalances group is applied to the store
as one batch write holding exactly the group's records, and no commitment
leaf is folded into any accumulator. -/
theorem groupLevel_batch_no_leaf_spec :
    (∀ (h : Handler) (g : List ContractStateConfig) (db : Database),
      processGroupContractStates h g db = .ok (h, { db with
        contract_states := db.contract_states ++ g
        state_writes := db.state_writes ++ [g] })) ∧
    (∀ (h : Handler) (g : List ContractBalanceConfig) (db : Database),
      processGroupContractBalances h g db = .ok (h, { db with
        contract_balances := db.contract_balances ++ g
        balance_writes := db.balance_writes ++ [g] })) ∧
    (∀ (h : Handler) (g : List ContractStateConfig) (db : Database),
      (resultDb (processGroupContractStates h g db)).map
          (fun db2 => (db2.coin_roots, db2.message_roots, db2.contract_roots))
        = some (db.coin_roots, db.message_roots, db.contract_roots)) ∧
    (∀ (h : Handler) (g : List ContractBalanceConfig) (db : Database),
      (resultDb (processGroupContractBalances h g db)).map
          (fun db2 => (db2.coin_roots, db2.message_roots, db2.contract_roots))
        = some (db.coin_roots, db.message_roots, db.contract_roots)) :=
  ⟨fun _ _ _ => rfl, fun _ _ _ => rfl, fun _ _ _ => rfl, fun _ _ _ => rfl⟩

/-- C8: a category whose snapshot file is absent decodes to the empty
sequence, not an error, and a load over that sequence succeeds leaving the
store untouched — zero commitment leaves folded for the category; the last
conjunct instantiates this at the Messages worker. -/
theorem missingFile_empty_spec :
    (∀ (T : Type) (file : Option (List (Group T))), file = none →
      readCategory file = []) ∧
    (∀ (T : Type)
       (step : Handler → T → Database → GResult (Handler × Database))
       (h : Handler) (db : Database) (file : Option (List (Group T))),
      file = none → runSeq step h (readCategory file) db = .ok (h, db)) ∧
    (∀ (r : StateReader) (bh : Nat) (db : Database), r.messagesFile = none →
      r.messages = [] ∧
      spawn_messages_worker bh r db = .ok (Handler.new bh, db) ∧
      (resultDb (spawn_messages_worker bh r db)).map Database.message_roots
        = some db.message_roots) := by
  refine ⟨?_, ?_, ?_⟩
  · rintro T _ rfl
    rfl
  · rintro T step h db _ rfl
    rfl
  · intro r bh db hnone
    have hm : r.messages = [] := by
      simp [StateReader.messages, hnone, readCategory]
    refine ⟨hm, ?_, ?_⟩
    · simp [spawn_messages_worker, hm, runSeq]
    · simp [spawn_messages_worker, hm, runSeq, resultDb]

/-- Witness for C8 at a snapshot with no messages file. -/
theorem missingFile_empty_witness :
    readCategory (T := MessageConfig) none = [] ∧
    runSeq processMessage (Handler.new 0)
      (readCategory (T := MessageConfig) none) emptyDb
      = .ok (Handler.new 0, emptyDb) ∧
    (StateReader.mk none none none none none).messages = [] ∧
    spawn_messages_worker 0 ⟨none, none, none, none, none⟩ emptyDb
      = .ok (Handler.new 0, emptyDb) :=
  ⟨missingFile_empty_spec.1 MessageConfig none rfl,
   missingFile_empty_spec.2.1 MessageConfig processMessage (Handler.new 0)
     emptyDb none rfl,
   (missingFile_empty_spec.2.2 ⟨none, none, none, none, none⟩ 0 emptyDb rfl).1,
   (missingFile_empty_spec.2.2 ⟨none, none, none, none, none⟩ 0 emptyDb rfl).2.1⟩

/-- A run over singleton groups built from an enumeration behaves exactly
like a record-level run over the underlying list. -/
theorem runGroups_singletons {T : Type}
    (step : Handler → T → Database → GResult (Handler × Database))
    (l : List T) (n : Nat) (h : Handler) (db : Database) :
    runGroups step h
        ((l.enumFrom n).map fun p => Group.mk p.1 [p.2]) db
      = processRecords step h l db := by
  induction l generalizing h db n with
  | nil => rfl
  | cons x rest ih =>
    show runGroups step h (Group.mk n [x] :: _) db = _
    cases hstep : step h x db with
    | ok hdb => simp [runGroups, processRecords, hstep, ih]
    | err m => simp [runGroups, processRecords, hstep]
    | panic m => simp [runGroups, processRecords, hstep]

/-- Persisting contract roots touches only the roots accumulator, so a run
over a list of ids appends one root per id, each computed from the store
contents the phase started with. -/
theorem processContractIds_roots (ids : List Nat) (h : Handler)
    (db : Database) :
    processRecords processContractId h ids db =
      .ok (h, { db with contract_roots :=
        db.contract_roots ++ ids.map fun i => computeContractRoot db i }) := by
  induction ids generalizing db with
  | nil => simp [processRecords]
  | cons i rest ih =>
    simp only [processRecords, processContractId]
    rw [ih]
    simp [Database.add_contract_root, computeContractRoot, List.append_assoc]

/-- C7: the ContractsRoot phase walks every distinct contract id present in
the store, one singleton group per id, group indices being the sequential
positions from 0, and persists for each id that contract's root computed
from the store contents. -/
theorem contractsRoot_phase_spec (db : Database) (bh : Nat) :
    db.genesis_contract_ids_iter.Nodup ∧
    (∀ x, x ∈ db.genesis_contract_ids_iter ↔ x ∈ db.contract_ids) ∧
    (contractRootGroups db).map Group.data
      = db.genesis_contract_ids_iter.map (fun i => [i]) ∧
    (contractRootGroups db).map Group.index
      = List.range db.genesis_contract_ids_iter.length ∧
    spawn_contracts_root_worker bh db = .ok (Handler.new bh,
      { db with contract_roots := db.contract_roots ++
          db.genesis_contract_ids_iter.map fun i => computeContractRoot db i }) := by
  refine ⟨List.nodup_dedup db.contract_ids, fun x => List.mem_dedup, ?_, ?_, ?_⟩
  · simp only [contractRootGroups, List.map_map]
    have : (Group.data ∘ fun p : Nat × Nat => Group.mk p.1 [p.2])
        = (fun i => [i]) ∘ Prod.snd := rfl
    rw [this, ← List.map_map, List.enum_map_snd]
  · simp only [contractRootGroups, List.map_map]
    have : (Group.index ∘ fun p : Nat × Nat => Group.mk p.1 [p.2])
        = Prod.fst := rfl
    rw [this, List.enum_map_fst]
  · rw [spawn_contracts_root_worker,
      show contractRootGroups db
        = (db.genesis_contract_ids_iter.enumFrom 0).map
            fun p => Group.mk p.1 [p.2] from rfl,
      runGroups_singletons, processContractIds_roots]

/-- Regrouping never loses or reorders records: the chunks flatten back to
the original stream. -/
theorem chunkList_flatten {T : Type} (g : Nat) (xs : List T) :
    (chunkList g xs).flatten = xs := by
  induction xs using chunkList.induct g with
  | case1 => rw [chunkList]; rfl
  | case2 x rest ih =>
    rw [chunkList]
    simp only [List.flatten_cons, ih, List.take_append_drop]

/-- When the encode-time writes already have the decode group size (last
one possibly shorter), regrouping the flattened stream restores exactly the
original groups. -/
theorem chunkList_sized {T : Type} (g : Nat) (hg : 0 < g) :
    ∀ (ws : List (List T)), sizedWrites g ws = true →
      chunkList g ws.flatten = ws := by
  have hmax : max g 1 = g := Nat.max_eq_left hg
  intro ws
  induction ws with
  | nil =>
    intro _
    rw [List.flatten_nil, chunkList]
  | cons w rest ih =>
    intro hs
    cases rest with
    | nil =>
      simp only [sizedWrites, Bool.and_eq_true, decide_eq_true_eq] at hs
      obtain ⟨hpos, hle⟩ := hs
      obtain ⟨y, t, rfl⟩ : ∃ y t, w = y :: t := by
        cases w with
        | nil => simp at hpos
        | cons y t => exact ⟨y, t, rfl⟩
      rw [show ([y :: t] : List (List T)).flatten = y :: t by simp]
      rw [chunkList, hmax, List.take_of_length_le hle,
        List.drop_of_length_le hle, chunkList]
    | cons w2 rest2 =>
      simp only [sizedWrites, Bool.and_eq_true, beq_iff_eq] at hs
      obtain ⟨hlen, hrest⟩ := hs
      obtain ⟨y, t, rfl⟩ : ∃ y t, w = y :: t := by
        cases w with
        | nil => rw [List.length_nil] at hlen; omega
        | cons y t => exact ⟨y, t, rfl⟩
      have hflat : (y :: t) ++ (w2 :: rest2).flatten
          = y :: (t ++ (w2 :: rest2).flatten) := rfl
      rw [List.flatten_cons, hflat, chunkList, hmax, ← hflat, ← hlen,
        List.take_left, List.drop_left, hlen, ih hrest]

/-- C3: for the columnar format, decode yields the written groups verbatim
with indices 0, 1, …; for the row format, decode preserves every record in
order for any group size, and restores the written groups with indices
0, 1, … whenever the decode group size matches the encode-time grouping
(the documented compatibility requirement). -/
theorem codec_roundtrip_spec :
    (∀ (T : Type) (writes : List (List T)),
      (decodeParquet (encodeParquet writes)).map Group.data = writes ∧
      (decodeParquet (encodeParquet writes)).map Group.index
        = List.range writes.length) ∧
    (∀ (T : Type) (g : Nat) (writes : List (List T)),
      ((decodeJson g (encodeJson writes)).map Group.data).flatten
        = writes.flatten ∧
      (decodeJson g (encodeJson writes)).map Group.index
        = List.range ((decodeJson g (encodeJson writes)).length)) ∧
    (∀ (T : Type) (g : Nat) (writes : List (List T)),
      0 < g → sizedWrites g writes = true →
      (decodeJson g (encodeJson writes)).map Group.data = writes ∧
      (decodeJson g (encodeJson writes)).map Group.index
        = List.range writes.length) := by
  have hdata : ∀ (T : Type) (file : List (List T)),
      (decodeParquet file).map Group.data = file := by
    intro T file
    simp only [decodeParquet, List.map_map]
    have : (Group.data ∘ fun p : Nat × List T => Group.mk p.1 p.2)
        = Prod.snd := rfl
    rw [this, List.enum_map_snd]
  have hindex : ∀ (T : Type) (file : List (List T)),
      (decodeParquet file).map Group.index = List.range file.length := by
    intro T file
    simp only [decodeParquet, List.map_map]
    have : (Group.index ∘ fun p : Nat × List T => Group.mk p.1 p.2)
        = Prod.fst := rfl
    rw [this, List.enum_map_fst]
  have hjson : ∀ (T : Type) (g : Nat) (file : List T),
      decodeJson g file = decodeParquet (chunkList g file) := by
    intro T g file
    rfl
  refine ⟨fun T writes => ⟨hdata T writes, hindex T writes⟩,
    fun T g writes => ?_, fun T g writes hg hs => ?_⟩
  · constructor
    · rw [hjson, hdata, chunkList_flatten, encodeJson]
    · rw [hjson, hindex]
      simp [decodeParquet]
  · rw [hjson, encodeJson, chunkList_sized g hg writes hs]
    exact ⟨hdata T writes, hindex T writes⟩

/-- Witness for C3's hypothesized conjunct: a two-group write with group
size 2 (full first group, shorter last group). -/
theorem codec_roundtrip_spec_witness :
    (decodeJson 2 (encodeJson [[10, 20], [30]])).map Group.data
        = [[10, 20], [30]] ∧
    (decodeJson 2 (encodeJson [[10, 20], [30]])).map Group.index
        = List.range 2 :=
  codec_roundtrip_spec.2.2 Nat 2 [[10, 20], [30]] (by decide) (by decide)

/-- A Coins run appends one stored coin per record; with provenance absent
in every record, the synthesized slots are the consecutive counter values,
and the contracts table is untouched. -/
theorem processCoins_slots (coins : List CoinConfig) (h : Handler)
    (db : Database) (habs : ∀ c ∈ coins, c.tx_id = none)
    (hb : h.output_index + coins.length ≤ u64Max) :
    ∃ db2, processRecords processCoin h coins db
        = .ok (⟨h.output_index + coins.length, h.block_height⟩, db2) ∧
      db2.coinSlots = db.coinSlots
        ++ List.range' h.output_index coins.length ∧
      db2.contracts = db.contracts := by
  induction coins generalizing h db with
  | nil =>
    refine ⟨db, ?_, by simp [List.range'], rfl⟩
    simp [processRecords]
  | cons c rest ih =>
    have hne : h.output_index ≠ u64Max := by
      rw [List.length_cons] at hb
      omega
    have hcons := habs c (List.mem_cons_self c rest)
    have hstep : processCoin h c db
        = .ok (⟨h.output_index + 1, h.block_height⟩, { db with
            coins := db.coins
              ++ [storedCoinOf c h.output_index h.block_height]
            coin_roots := db.coin_roots
              ++ [storedCoinOf c h.output_index h.block_height] }) := by
      simp [processCoin, init_coin, Database.add_coin_root, hne]
    obtain ⟨db2, hA, hB, hC⟩ := ih ⟨h.output_index + 1, h.block_height⟩
      ({ db with
         coins := db.coins ++ [storedCoinOf c h.output_index h.block_height]
         coin_roots := db.coin_roots
           ++ [storedCoinOf c h.output_index h.block_height] })
      (fun c2 hc2 => habs c2 (List.mem_cons_of_mem c hc2))
      (by rw [List.length_cons] at hb; show h.output_index + 1 + rest.length ≤ u64Max; omega)
    refine ⟨db2, ?_, ?_, ?_⟩
    · simp only [processRecords, hstep]
      rw [hA, List.length_cons,
        show h.output_index + 1 + rest.length
          = h.output_index + (rest.length + 1) by omega]
    · rw [hB, List.length_cons, List.range'_succ]
      have h1 : Database.coinSlots { db with
          coins := db.coins ++ [storedCoinOf c h.output_index h.block_height]
          coin_roots := db.coin_roots
            ++ [storedCoinOf c h.output_index h.block_height] }
          = db.coinSlots ++ [h.output_index] := by
        simp [Database.coinSlots, List.filterMap_append, storedCoinOf,
          StoredCoin.synthSlot, provenanceOf, hcons]
      rw [h1, List.append_assoc]
      rfl
    · rw [hC]

/-- A Contracts run appends one stored contract per record; with provenance
absent in every record, the synthesized slots are the consecutive counter
values, and the coins table is untouched. -/
theorem processContracts_slots (contracts : List ContractConfig)
    (h : Handler) (db : Database)
    (habs : ∀ k ∈ contracts, k.tx_id = none)
    (hb : h.output_index + contracts.length ≤ u64Max) :
    ∃ db2, processRecords processContract h contracts db
        = .ok (⟨h.output_index + contracts.length, h.block_height⟩, db2) ∧
      db2.contractSlots = db.contractSlots
        ++ List.range' h.output_index contracts.length ∧
      db2.coins = db.coins := by
  induction contracts generalizing h db with
  | nil =>
    refine ⟨db, ?_, by simp [List.range'], rfl⟩
    simp [processRecords]
  | cons k rest ih =>
    have hne : h.output_index ≠ u64Max := by
      rw [List.length_cons] at hb
      omega
    have hcons := habs k (List.mem_cons_self k rest)
    have hstep : processContract h k db
        = .ok (⟨h.output_index + 1, h.block_height⟩, { db with
            contracts := db.contracts
              ++ [storedContractOf k h.output_index h.block_height]
            contract_states := db.contract_states ++ embeddedStates k
            contract_balances := db.contract_balances ++ embeddedBalances k
            contract_ids := db.contract_ids ++ [k.contract_id] }) := by
      simp [processContract, init_contract, Database.add_contract_id, hne]
    obtain ⟨db2, hA, hB, hC⟩ := ih ⟨h.output_index + 1, h.block_height⟩
      ({ db with
         contracts := db.contracts
           ++ [storedContractOf k h.output_index h.block_height]
         contract_states := db.contract_states ++ embeddedStates k
         contract_balances := db.contract_balances ++ embeddedBalances k
         contract_ids := db.contract_ids ++ [k.contract_id] })
      (fun k2 hk2 => habs k2 (List.mem_cons_of_mem k hk2))
      (by rw [List.length_cons] at hb; show h.output_index + 1 + rest.length ≤ u64Max; omega)
    refine ⟨db2, ?_, ?_, ?_⟩
    · simp only [processRecords, hstep]
      rw [hA, List.length_cons,
        show h.output_index + 1 + rest.length
          = h.output_index + (rest.length + 1) by omega]
    · rw [hB, List.length_cons, List.range'_succ]
      have h1 : Database.contractSlots { db with
          contracts := db.contracts
            ++ [storedContractOf k h.output_index h.block_height]
          contract_states := db.contract_states ++ embeddedStates k
          contract_balances := db.contract_balances ++ embeddedBalances k
          contract_ids := db.contract_ids ++ [k.contract_id] }
          = db.contractSlots ++ [h.output_index] := by
        simp [Database.contractSlots, List.filterMap_append, storedContractOf,
          StoredContract.synthSlot, provenanceOf, hcons]
      rw [h1, List.append_assoc]
      rfl
    · rw [hC]

/-- C1 as stated is false on the code: each category runner gets a fresh
handler whose counter starts at zero, so loading one bare coin and one
bare contract (N = M = 1) assigns slot 0 twice — the slots used are
[0, 0], not the two distinct slots 0 and 1 the claim requires. -/
theorem sharedCounter_counterexample :
    runSlots (runCoinsThenContracts 0 [exCoin] [exContract] emptyDb)
      = some [0, 0] ∧
    slotsExactRange (runCoinsThenContracts 0 [exCoin] [exContract] emptyDb) 2
      = false := by
  decide

/-- C1 amended: the Coins and Contracts runners each draw from their own
fresh counter rather than one shared counter, so a genesis load over N
bare coins and M bare contracts synthesizes coin slots exactly
0, …, N - 1 and contract slots exactly 0, …, M - 1 — collision-free and
gap-free within each category, with the two categories reusing the same
range. -/
theorem perCategorySlots_spec (bh : Nat) (coins : List CoinConfig)
    (contracts : List ContractConfig)
    (hc : ∀ c ∈ coins, c.tx_id = none)
    (hk : ∀ k ∈ contracts, k.tx_id = none)
    (hcn : coins.length ≤ u64Max) (hkn : contracts.length ≤ u64Max) :
    ∃ db, runCoinsThenContracts bh coins contracts emptyDb = .ok db ∧
      db.coinSlots = List.range coins.length ∧
      db.contractSlots = List.range contracts.length := by
  obtain ⟨db1, hA1, hB1, hC1⟩ := processCoins_slots coins (Handler.new bh)
    emptyDb hc (by show 0 + coins.length ≤ u64Max; omega)
  obtain ⟨db2, hA2, hB2, hC2⟩ := processContracts_slots contracts
    (Handler.new bh) db1 hk (by show 0 + contracts.length ≤ u64Max; omega)
  refine ⟨db2, ?_, ?_, ?_⟩
  · simp only [runCoinsThenContracts, spawn_coins_worker,
      spawn_contracts_worker, hA1, hA2]
  · have : db2.coinSlots = db1.coinSlots := by
      rw [Database.coinSlots, hC2, ← Database.coinSlots]
    rw [this, hB1, show emptyDb.coinSlots = [] from rfl, List.nil_append,
      List.range_eq_range' coins.length]
    rfl
  · have hslots1 : db1.contractSlots = [] := by
      rw [Database.contractSlots, hC1]
      rfl
    rw [hB2, hslots1, List.nil_append, List.range_eq_range' contracts.length]
    rfl

/-- Witness for C1's amended theorem: one bare coin and one bare
contract. -/
theorem perCategorySlots_spec_witness :
    ∃ db, runCoinsThenContracts 0 [exCoin] [exContract] emptyDb = .ok db ∧
      db.coinSlots = List.range 1 ∧ db.contractSlots = List.range 1 := by
  have h := perCategorySlots_spec 0 [exCoin] [exContract]
    (by decide) (by decide) (by decide) (by decide)
  simpa using h

end FuelCore
